import Mathlib

/-!
Shallow embedding of the deals-bot backend (`backend/main.py`, `backend/schemas.py`).

Numeric conventions: the Python code computes on floats whose literal inputs are
exact decimals, so prices, ratings and discount percentages are modelled as `ℚ`;
the composite quality score involves `math.log10` and is modelled in `ℝ`.
Python's `round(x, k)` (round half to even on the exact value) is modelled by
`pyRound`; Python's stable `list.sort(key=…, reverse=True)` is modelled by
`List.mergeSort` with the descending comparator.
-/

namespace DealsBot

/-- Round to the nearest integer, ties to even (Python's `round` tie rule). -/
def rne {α : Type*} [LinearOrderedField α] [FloorRing α] (x : α) : ℤ :=
  if Int.fract x < 1 / 2 then ⌊x⌋
  else if 1 / 2 < Int.fract x then ⌊x⌋ + 1
  else if ⌊x⌋ % 2 = 0 then ⌊x⌋ else ⌊x⌋ + 1

/-- Python's `round(x, k)`: round to `k` decimal places, ties to even. -/
def pyRound {α : Type*} [LinearOrderedField α] [FloorRing α] (x : α) (k : ℕ) : α :=
  ((rne (x * 10 ^ k) : ℤ) : α) / 10 ^ k

/-- `_norm(v, lo, hi)` from `main.py`: 0 for a missing value or a degenerate
range, else `(v - lo)/(hi - lo)` clamped into `[0, 1]`. -/
noncomputable def norm (v : Option ℝ) (lo hi : ℝ) : ℝ :=
  match v with
  | none => 0
  | some v => if hi = lo then 0 else max 0 (min 1 ((v - lo) / (hi - lo)))

/-- `score_deal(price, rating, reviews)` from `main.py`. -/
noncomputable def score_deal (price rating : Option ℝ) (reviews : Option ℤ) : ℝ :=
  let price_score : ℝ :=
    match price with
    | none => 0
    | some _ => 1 - norm price 100 50000
  let rating_score : ℝ :=
    match rating with
    | none => 0
    | some r => r / 5
  let reviews_score : ℝ :=
    match reviews with
    | none => 0
    | some n => min 1 (Real.logb 10 ((max 1 n : ℤ) : ℝ) / 3)
  pyRound (0.5 * price_score + 0.35 * rating_score + 0.15 * reviews_score) 4

/-- The `Deal` record from `schemas.py` (the real-time `created_at` field is
omitted; no claim concerns it). -/
structure Deal where
  platform : String
  title : String
  price : ℚ
  original_price : Option ℚ := none
  discount_percent : Option ℚ := none
  rating : Option ℚ := none
  reviews_count : Option ℤ := none
  quality_score : Option ℝ := none
  image_urls : List String := []
  product_url : Option String := none
  delivery : Option String := none

/-- The `SearchQuery` record from `schemas.py`. -/
structure SearchQuery where
  query : String
  category : Option String := none
  min_price : Option ℚ := none
  max_price : Option ℚ := none
  sort_by : Option String := some "best"

/-- The `SearchResponse` record from `schemas.py`. -/
structure SearchResponse where
  deals : List Deal
  pitch : String

/-- Python's `str.capitalize()`: first character upper-cased, rest lower-cased. -/
def pyCapitalize (s : String) : String :=
  match s.toList with
  | [] => ""
  | c :: cs => ⟨c.toUpper :: cs.map Char.toLower⟩

/-- Helper for `pyTitle`: the Boolean tracks whether the previous character was
alphabetic. -/
def titleChars : Bool → List Char → List Char
  | _, [] => []
  | prevAlpha, c :: cs =>
    (if c.isAlpha then (if prevAlpha then c.toLower else c.toUpper) else c)
      :: titleChars c.isAlpha cs

/-- Python's `str.title()`: each alphabetic run starts upper-case and continues
lower-case. -/
def pyTitle (s : String) : String := ⟨titleChars false s.toList⟩

/-- Python's `int(x)` on a float: truncation toward zero. -/
def pyInt (x : ℚ) : ℤ := if 0 ≤ x then ⌊x⌋ else ⌈x⌉

/-- Decimal digits of a fractional part, most significant first (fuel-bounded). -/
def decDigits : ℕ → ℚ → String
  | 0, _ => ""
  | n + 1, x =>
    if x = 0 then "" else toString (⌊x * 10⌋ : ℤ) ++ decDigits n (Int.fract (x * 10))

/-- Python's string rendering of a float with a short exact decimal expansion
(`20.0`, `4.5`, …). -/
def pyShowFloat (x : ℚ) : String :=
  let sgn := if x < 0 then "-" else ""
  let a := |x|
  let frac := Int.fract a
  sgn ++ toString (⌊a⌋ : ℤ) ++ "." ++ (if frac = 0 then "0" else decDigits 17 frac)

/-- Python's f-string rendering of an `Optional[float]`. -/
def showOptFloat : Option ℚ → String
  | none => "None"
  | some x => pyShowFloat x

/-- Python's f-string rendering of an `Optional[int]`. -/
def showOptInt : Option ℤ → String
  | none => "None"
  | some n => toString n

/-- The `PLATFORMS` constant from `main.py`. -/
def PLATFORMS : List String := ["amazon", "flipkart", "myntra", "ajio"]

/-- The `demo_images` list from `scrape_stub`. -/
def demo_images : List String :=
  ["https://images.unsplash.com/photo-1511707171634-5f897ff02aa9",
   "https://images.unsplash.com/photo-1512499617640-c2f999098c01",
   "https://images.unsplash.com/photo-1517336714731-489689fd1ca8",
   "https://images.unsplash.com/photo-1526178610626-3f118bb11566"]

/-- One loop iteration of `scrape_stub`: build the `Deal` for platform `pf` at
index `i` with price delta `delta`, the given rating and review count. -/
noncomputable def mkDeal (query : String) (i : ℕ) (pf : String) (delta rating : ℚ)
    (reviews : ℤ) : Deal :=
  let price : ℚ := max 99 (999 + delta)
  let original : ℚ := price * 1.25
  let discount : ℚ := pyRound ((1 - price / original) * 100) 2
  { platform := pf
    title := pyTitle query ++ " – Top Pick #" ++ toString (i + 1)
    price := pyRound price 2
    original_price := some (pyRound original 2)
    discount_percent := some discount
    rating := some rating
    reviews_count := some reviews
    quality_score := some (score_deal (some (price : ℝ)) (some (rating : ℝ)) (some reviews))
    image_urls := demo_images
    product_url := some ("https://" ++ pf ++ ".com/s?k=" ++ query.replace " " "+")
    delivery := some "Fast delivery in 2-4 days" }

/-- The deal list built by the loop in `scrape_stub`, before the final sort;
the platform tuples `(pf, delta, rating, reviews)` are the literals of
`main.py`. -/
noncomputable def preDeals (query : String) : List Deal :=
  [mkDeal query 0 "amazon" 0 4.5 1250,
   mkDeal query 1 "flipkart" (-50) 4.3 980,
   mkDeal query 2 "myntra" 120 4.6 540,
   mkDeal query 3 "ajio" (-100) 4.2 330]

/-- Sort key `d.quality_score or 0` used by `scrape_stub` and the `best`
branch. -/
noncomputable def qkey (d : Deal) : ℝ := d.quality_score.getD 0

/-- Descending stable-sort comparator on a key (`reverse=True` in Python). -/
def descBy {β : Type*} [LinearOrder β] (key : Deal → β) (a b : Deal) : Bool :=
  decide (key b ≤ key a)

/-- Ascending stable-sort comparator on a key. -/
def ascBy {β : Type*} [LinearOrder β] (key : Deal → β) (a b : Deal) : Bool :=
  decide (key a ≤ key b)

/-- `scrape_stub(query)` from `main.py`: the synthesized deals, sorted by
composite quality score descending (stable). -/
noncomputable def scrape_stub (query : String) : List Deal :=
  (preDeals query).mergeSort (descBy qkey)

/-- `craft_pitch(query, deals)` from `main.py`. -/
def craft_pitch (query : String) (deals : List Deal) : String :=
  match deals with
  | [] =>
    "I couldn\x27t find great matches for ‘" ++ query ++ "’ right now. " ++
      "Try refining the product name or category, and I\x27ll hunt for fresh deals."
  | best :: rest =>
    let alt := String.intercalate ", "
      ((rest.take 2).map fun d => pyCapitalize d.platform ++ " at ₹" ++ toString (pyInt d.price))
    "If you\x27re looking for " ++ query ++ ", my best pick is on " ++
      pyCapitalize best.platform ++ " at ₹" ++ toString (pyInt best.price) ++ " with " ++
      showOptFloat best.discount_percent ++ "% off and a solid " ++
      showOptFloat best.rating ++ "★ from " ++ showOptInt best.reviews_count ++
      "+ reviews. I can also get you options from " ++ alt ++
      ". Want me to open the best offer for you?"

/-- The price-filter block of `search_deals`: keep `price >= min_price` (when
given), then keep `price <= max_price` (when given). -/
def applyFilters (min_price max_price : Option ℚ) (deals : List Deal) : List Deal :=
  let deals :=
    match min_price with
    | none => deals
    | some mn => deals.filter fun d => decide (mn ≤ d.price)
  match max_price with
  | none => deals
  | some mx => deals.filter fun d => decide (d.price ≤ mx)

/-- The sort block of `search_deals`: dispatch on `sort_by`, any unrecognized
value falling through to the `best` (quality score descending) branch. -/
noncomputable def sortDeals (sort_by : Option String) (deals : List Deal) : List Deal :=
  if sort_by = some "price_low" then deals.mergeSort (ascBy (·.price))
  else if sort_by = some "price_high" then deals.mergeSort (descBy (·.price))
  else if sort_by = some "rating" then deals.mergeSort (descBy fun d => d.rating.getD 0)
  else if sort_by = some "reviews" then deals.mergeSort (descBy fun d => d.reviews_count.getD 0)
  else deals.mergeSort (descBy qkey)

/-- `search_deals(payload)` from `main.py`: synthesize, filter, sort, pitch. -/
noncomputable def search_deals (payload : SearchQuery) : SearchResponse :=
  let deals := scrape_stub payload.query
  let deals := applyFilters payload.min_price payload.max_price deals
  let deals := sortDeals payload.sort_by deals
  { deals := deals, pitch := craft_pitch payload.query deals }

/-! ### Helper lemmas on rounding -/

theorem rne_intCast {α : Type*} [LinearOrderedField α] [FloorRing α] (m : ℤ) :
    rne ((m : α)) = m := by
  unfold rne
  rw [Int.fract_intCast, Int.floor_intCast]
  norm_num

theorem pyRound_of_mul_eq {α : Type*} [LinearOrderedField α] [FloorRing α]
    {x : α} {k : ℕ} {m : ℤ} (h : x * 10 ^ k = (m : α)) :
    pyRound x k = (m : α) / 10 ^ k := by
  unfold pyRound
  rw [h, rne_intCast]

theorem rne_nonneg {α : Type*} [LinearOrderedField α] [FloorRing α]
    {x : α} (hx : 0 ≤ x) : 0 ≤ rne x := by
  have h0 : (0 : ℤ) ≤ ⌊x⌋ := Int.floor_nonneg.2 hx
  unfold rne
  split
  · exact h0
  · split
    · omega
    · split <;> omega

theorem rne_le_of_le {α : Type*} [LinearOrderedField α] [FloorRing α]
    {x : α} {n : ℤ} (hx : x ≤ (n : α)) : rne x ≤ n := by
  have hfl : ⌊x⌋ ≤ n := by
    have := Int.floor_mono hx
    simpa using this
  have hstep : ¬ Int.fract x < 1 / 2 → ⌊x⌋ + 1 ≤ n := by
    intro hge
    have h2 : (1 : α) / 2 ≤ Int.fract x := not_lt.1 hge
    have hxf : (⌊x⌋ : α) = x - Int.fract x := by
      rw [Int.self_sub_fract]
    have : (⌊x⌋ : α) < (n : α) := by
      rw [hxf]
      have : x - Int.fract x ≤ x - 1 / 2 := by linarith
      linarith
    have : ⌊x⌋ < n := by exact_mod_cast this
    omega
  unfold rne
  split
  · exact hfl
  · rename_i hge
    split
    · exact hstep hge
    · split
      · exact hfl
      · exact hstep hge

theorem pyRound_mem_Icc {α : Type*} [LinearOrderedField α] [FloorRing α]
    {x : α} {k : ℕ} (h0 : 0 ≤ x) (h1 : x ≤ 1) : pyRound x k ∈ Set.Icc (0 : α) 1 := by
  have hpow : (0 : α) < 10 ^ k := by positivity
  have hlo : 0 ≤ x * 10 ^ k := by positivity
  have hhi : x * 10 ^ k ≤ ((10 ^ k : ℤ) : α) := by
    push_cast
    nlinarith
  have hrlo : (0 : ℤ) ≤ rne (x * 10 ^ k) := rne_nonneg hlo
  have hrhi : rne (x * 10 ^ k) ≤ 10 ^ k := rne_le_of_le hhi
  constructor
  · unfold pyRound
    have : (0 : α) ≤ ((rne (x * 10 ^ k) : ℤ) : α) := by exact_mod_cast hrlo
    positivity
  · unfold pyRound
    rw [div_le_one hpow]
    exact_mod_cast hrhi

/-! ### Scorer: boundary evaluations -/

theorem score_boundary_low : score_deal (some 100) (some 0) (some 0) = 1 / 2 := by
  have h1 : score_deal (some 100) (some 0) (some 0) = pyRound (1 / 2 : ℝ) 4 := by
    simp [score_deal, norm, Real.logb_one]
    norm_num
  rw [h1, pyRound_of_mul_eq (m := 5000) (by norm_num)]
  norm_num

theorem logb_ten_thousand : Real.logb 10 (1000 : ℝ) = 3 := by
  have h : (1000 : ℝ) = 10 ^ (3 : ℕ) := by norm_num
  rw [h, Real.logb_pow, Real.logb_self_eq_one] <;> norm_num

theorem score_boundary_high : score_deal (some 50000) (some 5) (some 1000) = 1 / 2 := by
  have h1 : score_deal (some 50000) (some 5) (some 1000) = pyRound (1 / 2 : ℝ) 4 := by
    simp [score_deal, norm, logb_ten_thousand]
    norm_num
  rw [h1, pyRound_of_mul_eq (m := 5000) (by norm_num)]
  norm_num

theorem score_deal_unfold (price rating : Option ℝ) (reviews : Option ℤ) :
    score_deal price rating reviews =
      pyRound
        (0.5 * (match price with
                | none => (0 : ℝ)
                | some p => 1 - max 0 (min 1 ((p - 100) / (50000 - 100)))) +
         0.35 * (match rating with
                 | none => (0 : ℝ)
                 | some r => r / 5) +
         0.15 * (match reviews with
                 | none => (0 : ℝ)
                 | some n => min 1 (Real.logb 10 ((max 1 n : ℤ) : ℝ) / 3))) 4 := by
  have hnorm : ∀ p : ℝ, norm (some p) 100 50000 = max 0 (min 1 ((p - 100) / (50000 - 100))) := by
    intro p
    simp only [norm]
    rw [if_neg (by norm_num)]
  cases price <;> cases rating <;> cases reviews <;>
    simp [score_deal, hnorm]

/-- C1: for every optional price, optional rating and optional review count,
`score_deal` equals `0.5*priceScore + 0.35*ratingScore + 0.15*reviewsScore`
rounded to 4 decimal places, where `priceScore` is 0 when price is absent and
otherwise `1 - clamp((price-100)/(50000-100), 0, 1)`, `ratingScore` is 0 when
rating is absent and otherwise `rating/5`, and `reviewsScore` is 0 when the
review count is absent and otherwise `min(1, log10(max(1, reviews))/3)`. -/
theorem score_deal_eq_weighted_blend (price rating : Option ℝ) (reviews : Option ℤ) :
    score_deal price rating reviews =
      pyRound
        (0.5 * (match price with
                | none => (0 : ℝ)
                | some p => 1 - max 0 (min 1 ((p - 100) / (50000 - 100)))) +
         0.35 * (match rating with
                 | none => (0 : ℝ)
                 | some r => r / 5) +
         0.15 * (match reviews with
                 | none => (0 : ℝ)
                 | some n => min 1 (Real.logb 10 ((max 1 n : ℤ) : ℝ) / 3))) 4 :=
  score_deal_unfold price rating reviews

theorem clamp01_mem (x : ℝ) : max 0 (min 1 x) ∈ Set.Icc (0 : ℝ) 1 :=
  ⟨le_max_left _ _, max_le (by norm_num) (min_le_left _ _)⟩

/-- C3: for every present price ≥ 0, present rating in [0,5] and present
non-negative review count (absent values allowed as well), the composite score
lies in the closed interval [0,1]. -/
theorem blend_mem {A B C : ℝ} (hA0 : 0 ≤ A) (hA1 : A ≤ 1) (hB0 : 0 ≤ B) (hB1 : B ≤ 1)
    (hC0 : 0 ≤ C) (hC1 : C ≤ 1) :
    pyRound (0.5 * A + 0.35 * B + 0.15 * C) 4 ∈ Set.Icc (0 : ℝ) 1 :=
  pyRound_mem_Icc (by linarith) (by linarith)

theorem priceS_bounds (p : ℝ) :
    0 ≤ 1 - max 0 (min 1 ((p - 100) / (50000 - 100))) ∧
    1 - max 0 (min 1 ((p - 100) / (50000 - 100))) ≤ 1 := by
  have h := clamp01_mem ((p - 100) / (50000 - 100))
  simp only [Set.mem_Icc] at h
  constructor <;> linarith [h.1, h.2]

theorem revS_bounds (n : ℤ) :
    0 ≤ min 1 (Real.logb 10 ((max 1 n : ℤ) : ℝ) / 3) ∧
    min 1 (Real.logb 10 ((max 1 n : ℤ) : ℝ) / 3) ≤ 1 := by
  constructor
  · refine le_min (by norm_num) (div_nonneg ?_ (by norm_num))
    exact Real.logb_nonneg (by norm_num) (by exact_mod_cast le_max_left 1 n)
  · exact min_le_left _ _

theorem score_deal_mem_unit_interval (price rating : Option ℝ) (reviews : Option ℤ)
    (_hp : ∀ p ∈ price, 0 ≤ p) (hr : ∀ r ∈ rating, 0 ≤ r ∧ r ≤ 5)
    (_hn : ∀ n ∈ reviews, 0 ≤ n) :
    score_deal price rating reviews ∈ Set.Icc (0 : ℝ) 1 := by
  rw [score_deal_unfold]
  rcases price with _ | p <;> rcases rating with _ | r <;> rcases reviews with _ | n
  · exact blend_mem le_rfl zero_le_one le_rfl zero_le_one le_rfl zero_le_one
  · exact blend_mem le_rfl zero_le_one le_rfl zero_le_one (revS_bounds n).1 (revS_bounds n).2
  · obtain ⟨h0, h5⟩ := hr r (by simp)
    exact blend_mem le_rfl zero_le_one (by linarith) (by linarith) le_rfl zero_le_one
  · obtain ⟨h0, h5⟩ := hr r (by simp)
    exact blend_mem le_rfl zero_le_one (by linarith) (by linarith)
      (revS_bounds n).1 (revS_bounds n).2
  · exact blend_mem (priceS_bounds p).1 (priceS_bounds p).2 le_rfl zero_le_one
      le_rfl zero_le_one
  · exact blend_mem (priceS_bounds p).1 (priceS_bounds p).2 le_rfl zero_le_one
      (revS_bounds n).1 (revS_bounds n).2
  · obtain ⟨h0, h5⟩ := hr r (by simp)
    exact blend_mem (priceS_bounds p).1 (priceS_bounds p).2 (by linarith) (by linarith)
      le_rfl zero_le_one
  · obtain ⟨h0, h5⟩ := hr r (by simp)
    exact blend_mem (priceS_bounds p).1 (priceS_bounds p).2 (by linarith) (by linarith)
      (revS_bounds n).1 (revS_bounds n).2

/-- C3 witness: the hypotheses hold and the theorem applies at
`(price, rating, reviews) = (100, 0, 0)`. -/
theorem score_deal_mem_unit_interval_witness :
    (∀ p ∈ (some (100 : ℝ) : Option ℝ), 0 ≤ p) ∧
    (∀ r ∈ (some (0 : ℝ) : Option ℝ), 0 ≤ r ∧ r ≤ 5) ∧
    (∀ n ∈ (some (0 : ℤ) : Option ℤ), 0 ≤ n) ∧
    score_deal (some 100) (some 0) (some 0) ∈ Set.Icc (0 : ℝ) 1 :=
  ⟨by norm_num, by norm_num, by norm_num,
    score_deal_mem_unit_interval (some 100) (some 0) (some 0)
      (by norm_num) (by norm_num) (by norm_num)⟩

/-- C2 counterexample: the claimed boundary value 0.85 at
`(price, rating, reviews) = (50000, 5, 1000)` is wrong: the score there is 0.5
(price contributes 0 at the top of the range, so the total is 0.35 + 0.15). -/
theorem score_boundary_claim_false :
    ¬ (score_deal (some 100) (some 0) (some 0) = 0.5 ∧
       score_deal (some 50000) (some 5) (some 1000) = 0.85) := by
  intro h
  have h2 := h.2
  rw [score_boundary_high] at h2
  norm_num at h2

/-- C2 amended: `score(price=100, rating=0, reviewCount=0) = 0.5` and
`score(price=50000, rating=5, reviewCount=1000) = 0.5` (not 0.85). -/
theorem score_boundary_values :
    score_deal (some 100) (some 0) (some 0) = 0.5 ∧
    score_deal (some 50000) (some 5) (some 1000) = 0.5 := by
  constructor
  · rw [score_boundary_low]; norm_num
  · rw [score_boundary_high]; norm_num

/-! ### Filtering and sorting -/

/-- C7: price-range filtering is idempotent: applying the same optional
min/max bounds twice yields the same list as applying them once. -/
theorem applyFilters_idempotent (min_price max_price : Option ℚ) (l : List Deal) :
    applyFilters min_price max_price (applyFilters min_price max_price l) =
      applyFilters min_price max_price l := by
  cases min_price with
  | none =>
    cases max_price with
    | none => rfl
    | some b =>
      show (l.filter fun d => decide (d.price ≤ b)).filter (fun d => decide (d.price ≤ b)) =
        l.filter fun d => decide (d.price ≤ b)
      exact List.filter_eq_self.2 fun x hx => (List.mem_filter.1 hx).2
  | some a =>
    cases max_price with
    | none =>
      show (l.filter fun d => decide (a ≤ d.price)).filter (fun d => decide (a ≤ d.price)) =
        l.filter fun d => decide (a ≤ d.price)
      exact List.filter_eq_self.2 fun x hx => (List.mem_filter.1 hx).2
    | some b =>
      show ((((l.filter fun d => decide (a ≤ d.price)).filter fun d => decide (d.price ≤ b)).filter
            fun d => decide (a ≤ d.price)).filter fun d => decide (d.price ≤ b)) =
          (l.filter fun d => decide (a ≤ d.price)).filter fun d => decide (d.price ≤ b)
      have e1 : ((l.filter fun d => decide (a ≤ d.price)).filter
            fun d => decide (d.price ≤ b)).filter (fun d => decide (a ≤ d.price)) =
          (l.filter fun d => decide (a ≤ d.price)).filter fun d => decide (d.price ≤ b) :=
        List.filter_eq_self.2 fun x hx => (List.mem_filter.1 (List.mem_filter.1 hx).1).2
      rw [e1]
      exact List.filter_eq_self.2 fun x hx => (List.mem_filter.1 hx).2

/-- C6: any sort directive other than `price_low`, `price_high`, `rating` and
`reviews` produces exactly the ordering of `best` (quality score descending). -/
theorem sortDeals_unknown_eq_best (s : String) (h1 : s ≠ "price_low")
    (h2 : s ≠ "price_high") (h3 : s ≠ "rating") (h4 : s ≠ "reviews") (l : List Deal) :
    sortDeals (some s) l = sortDeals (some "best") l := by
  simp [sortDeals, h1, h2, h3, h4]

/-- C6 witness: the unknown directive `banana` sorts exactly as `best` does. -/
theorem sortDeals_unknown_eq_best_witness :
    ("banana" : String) ≠ "price_low" ∧ ("banana" : String) ≠ "price_high" ∧
    ("banana" : String) ≠ "rating" ∧ ("banana" : String) ≠ "reviews" ∧
    sortDeals (some "banana") [] = sortDeals (some "best") [] :=
  ⟨by decide, by decide, by decide, by decide,
    sortDeals_unknown_eq_best "banana" (by decide) (by decide) (by decide) (by decide) []⟩

/-! ### Pitch composition -/

/-- C9: on an empty deal list, `craft_pitch` returns the fixed apology
template, which contains the literal query text between its two fixed
halves. -/
theorem craft_pitch_empty (query : String) :
    craft_pitch query [] =
      "I couldn\x27t find great matches for ‘" ++ query ++
        "’ right now. Try refining the product name or category, and I\x27ll hunt for fresh deals." := by
  have h : ("’ right now. " ++
      "Try refining the product name or category, and I\x27ll hunt for fresh deals." : String) =
      "’ right now. Try refining the product name or category, and I\x27ll hunt for fresh deals." := rfl
  simp only [craft_pitch]
  rw [String.append_assoc, h]

/-- C10: on a single-deal list, `craft_pitch` takes the non-empty branch with an
empty alternatives string, so the output contains
`I can also get you options from ` immediately followed by `. `, naming no
alternative platform. -/
theorem craft_pitch_single_empty_alternatives (query : String) (d : Deal) :
    ∃ A : String, craft_pitch query [d] =
      A ++ ("I can also get you options from " ++ ". Want me to open the best offer for you?") := by
  refine ⟨"If you\x27re looking for " ++ query ++ ", my best pick is on " ++
    pyCapitalize d.platform ++ " at ₹" ++ toString (pyInt d.price) ++ " with " ++
    showOptFloat d.discount_percent ++ "% off and a solid " ++
    showOptFloat d.rating ++ "★ from " ++ showOptInt d.reviews_count ++ "+ reviews. ", ?_⟩
  have hsplit : ("+ reviews. I can also get you options from " : String) =
      "+ reviews. " ++ "I can also get you options from " := rfl
  have halt : String.intercalate ", " ([] : List String) = "" := rfl
  simp only [craft_pitch, List.take_nil, List.map_nil, halt, hsplit,
    String.append_empty, String.append_assoc]

/-! ### Stable-sort comparator facts -/

theorem descBy_trans {β : Type*} [LinearOrder β] (key : Deal → β) :
    ∀ a b c, descBy key a b = true → descBy key b c = true → descBy key a c = true := by
  intro a b c
  simp only [descBy, decide_eq_true_eq]
  exact fun h1 h2 => le_trans h2 h1

theorem descBy_total {β : Type*} [LinearOrder β] (key : Deal → β) :
    ∀ a b, (descBy key a b || descBy key b a) = true := by
  intro a b
  simp only [descBy, Bool.or_eq_true, decide_eq_true_eq]
  exact le_total (key b) (key a)

theorem ascBy_trans {β : Type*} [LinearOrder β] (key : Deal → β) :
    ∀ a b c, ascBy key a b = true → ascBy key b c = true → ascBy key a c = true := by
  intro a b c
  simp only [ascBy, decide_eq_true_eq]
  exact fun h1 h2 => le_trans h1 h2

theorem ascBy_total {β : Type*} [LinearOrder β] (key : Deal → β) :
    ∀ a b, (ascBy key a b || ascBy key b a) = true := by
  intro a b
  simp only [ascBy, Bool.or_eq_true, decide_eq_true_eq]
  exact le_total (key a) (key b)

/-! ### The synthesizer -/

/-- C4: `scrape_stub` returns one deal per platform of the fixed list (so 4
deals), every price is at least 99, the output is ordered by descending
quality score, and any already-descending sublist of the generated order
survives as a sublist (the sort is stable, so ties keep the original
platform-tuple order). -/
theorem scrape_stub_shape (query : String) :
    ((scrape_stub query).map Deal.platform).Perm PLATFORMS ∧
    (scrape_stub query).length = 4 ∧
    (∀ d ∈ scrape_stub query, 99 ≤ d.price) ∧
    (scrape_stub query).Pairwise (fun a b => qkey b ≤ qkey a) ∧
    (∀ c : List Deal, c.Pairwise (fun a b => qkey b ≤ qkey a) →
      c.Sublist (preDeals query) → c.Sublist (scrape_stub query)) := by
  have hperm : (scrape_stub query).Perm (preDeals query) := List.mergeSort_perm _ _
  refine ⟨?_, ?_, ?_, ?_, ?_⟩
  · have h1 : ((scrape_stub query).map Deal.platform).Perm
        ((preDeals query).map Deal.platform) := hperm.map _
    have h2 : (preDeals query).map Deal.platform = PLATFORMS := rfl
    rwa [h2] at h1
  · rw [scrape_stub, List.length_mergeSort]
    rfl
  · intro d hd
    have hd' : d ∈ preDeals query := List.mem_mergeSort.1 hd
    simp only [preDeals, List.mem_cons, List.not_mem_nil, or_false] at hd'
    rcases hd' with rfl | rfl | rfl | rfl
    · show (99 : ℚ) ≤ pyRound (max 99 (999 + 0)) 2
      rw [show (max 99 (999 + 0 : ℚ)) = 999 by norm_num,
        pyRound_of_mul_eq (m := 99900) (by norm_num)]
      norm_num
    · show (99 : ℚ) ≤ pyRound (max 99 (999 + (-50))) 2
      rw [show (max 99 (999 + (-50) : ℚ)) = 949 by norm_num,
        pyRound_of_mul_eq (m := 94900) (by norm_num)]
      norm_num
    · show (99 : ℚ) ≤ pyRound (max 99 (999 + 120)) 2
      rw [show (max 99 (999 + 120 : ℚ)) = 1119 by norm_num,
        pyRound_of_mul_eq (m := 111900) (by norm_num)]
      norm_num
    · show (99 : ℚ) ≤ pyRound (max 99 (999 + (-100))) 2
      rw [show (max 99 (999 + (-100) : ℚ)) = 899 by norm_num,
        pyRound_of_mul_eq (m := 89900) (by norm_num)]
      norm_num
  · have hs := List.sorted_mergeSort (descBy_trans qkey) (descBy_total qkey) (preDeals query)
    exact hs.imp fun h => by simpa [descBy, decide_eq_true_eq] using h
  · intro c hc hsub
    refine List.sublist_mergeSort (descBy_trans qkey) (descBy_total qkey) ?_ hsub
    exact hc.imp fun h => by simpa [descBy, decide_eq_true_eq] using h

/-- For a nonzero price, `round((1 - price/(price*1.25))*100, 2)` is exactly
20. -/
theorem discount_twenty {p : ℚ} (hp : p ≠ 0) :
    pyRound ((1 - p / (p * 1.25)) * 100) 2 = 20 := by
  have h : (1 - p / (p * 1.25)) * 100 = 20 := by
    field_simp
    ring
  rw [h, pyRound_of_mul_eq (m := 2000) (by norm_num)]
  norm_num

/-- C5: every synthesized deal has `discount_percent` exactly 20, because the
original price is exactly 1.25 times the price. -/
theorem scrape_stub_discount (query : String) :
    ∀ d ∈ scrape_stub query, d.discount_percent = some 20 := by
  intro d hd
  have hd' : d ∈ preDeals query := List.mem_mergeSort.1 hd
  simp only [preDeals, List.mem_cons, List.not_mem_nil, or_false] at hd'
  rcases hd' with rfl | rfl | rfl | rfl
  · show some (pyRound ((1 - (max 99 (999 + 0 : ℚ)) / ((max 99 (999 + 0 : ℚ)) * 1.25)) * 100) 2) =
      some 20
    rw [discount_twenty (by norm_num)]
  · show some (pyRound
        ((1 - (max 99 (999 + (-50) : ℚ)) / ((max 99 (999 + (-50) : ℚ)) * 1.25)) * 100) 2) =
      some 20
    rw [discount_twenty (by norm_num)]
  · show some (pyRound
        ((1 - (max 99 (999 + 120 : ℚ)) / ((max 99 (999 + 120 : ℚ)) * 1.25)) * 100) 2) =
      some 20
    rw [discount_twenty (by norm_num)]
  · show some (pyRound
        ((1 - (max 99 (999 + (-100) : ℚ)) / ((max 99 (999 + (-100) : ℚ)) * 1.25)) * 100) 2) =
      some 20
    rw [discount_twenty (by norm_num)]

/-- C5 witness: the amazon deal of query `x` is in the output and its discount
is exactly 20. -/
theorem scrape_stub_discount_witness :
    mkDeal "x" 0 "amazon" 0 4.5 1250 ∈ scrape_stub "x" ∧
    (mkDeal "x" 0 "amazon" 0 4.5 1250).discount_percent = some 20 :=
  have hmem : mkDeal "x" 0 "amazon" 0 4.5 1250 ∈ scrape_stub "x" :=
    List.mem_mergeSort.2 (by simp [preDeals])
  ⟨hmem, scrape_stub_discount "x" _ hmem⟩

/-! ### price_low versus price_high -/

theorem sortDeals_price_low (l : List Deal) :
    sortDeals (some "price_low") l = l.mergeSort (ascBy fun d => d.price) := by
  simp [sortDeals]

theorem sortDeals_price_high (l : List Deal) :
    sortDeals (some "price_high") l = l.mergeSort (descBy fun d => d.price) := by
  simp [sortDeals]

/-- C8: when no two deals share a price, reversing the `price_low` (ascending)
order gives exactly the `price_high` (descending) order. -/
theorem sortDeals_low_reverse_eq_high (l : List Deal)
    (h : l.Pairwise fun a b => a.price ≠ b.price) :
    (sortDeals (some "price_low") l).reverse = sortDeals (some "price_high") l := by
  rw [sortDeals_price_low, sortDeals_price_high]
  have hA : (l.mergeSort (ascBy fun d => d.price)).Pairwise
      (fun a b : Deal => a.price ≤ b.price) :=
    (List.sorted_mergeSort (ascBy_trans fun d => d.price) (ascBy_total fun d => d.price) l).imp
      fun hab => by simpa [ascBy, decide_eq_true_eq] using hab
  have hB : (l.mergeSort (descBy fun d => d.price)).Pairwise
      (fun a b : Deal => b.price ≤ a.price) :=
    (List.sorted_mergeSort (descBy_trans fun d => d.price) (descBy_total fun d => d.price) l).imp
      fun hab => by simpa [descBy, decide_eq_true_eq] using hab
  have hArev : ((l.mergeSort (ascBy fun d => d.price)).reverse).Pairwise
      (fun a b : Deal => b.price ≤ a.price) := List.pairwise_reverse.2 hA
  have hsymm : ∀ {x y : Deal}, x.price ≠ y.price → y.price ≠ x.price := fun hxy => hxy.symm
  have hpermA : ((l.mergeSort (ascBy fun d => d.price)).reverse).Perm l :=
    (List.reverse_perm _).trans (List.mergeSort_perm l _)
  have hpermB : (l.mergeSort (descBy fun d => d.price)).Perm l := List.mergeSort_perm l _
  have hneA : ((l.mergeSort (ascBy fun d => d.price)).reverse).Pairwise
      (fun a b : Deal => a.price ≠ b.price) := (hpermA.pairwise_iff hsymm).2 h
  have hneB : (l.mergeSort (descBy fun d => d.price)).Pairwise
      (fun a b : Deal => a.price ≠ b.price) := (hpermB.pairwise_iff hsymm).2 h
  have hstrictA : ((l.mergeSort (ascBy fun d => d.price)).reverse).Pairwise
      (fun a b : Deal => b.price < a.price) :=
    (hArev.and hneA).imp fun hab => lt_of_le_of_ne hab.1 (Ne.symm hab.2)
  have hstrictB : (l.mergeSort (descBy fun d => d.price)).Pairwise
      (fun a b : Deal => b.price < a.price) :=
    (hB.and hneB).imp fun hab => lt_of_le_of_ne hab.1 (Ne.symm hab.2)
  letI : IsAntisymm Deal (fun a b : Deal => b.price < a.price) :=
    ⟨fun _ _ h1 h2 => (lt_asymm h1 h2).elim⟩
  exact List.eq_of_perm_of_sorted (hpermA.trans hpermB.symm) hstrictA hstrictB

/-- Two fixed deals with distinct prices for the C8 witness. -/
def dealP1 : Deal := { platform := "a", title := "", price := 1 }

/-- Second fixed deal for the C8 witness. -/
def dealP2 : Deal := { platform := "b", title := "", price := 2 }

/-- C8 witness: on the two-deal list with prices 1 and 2, the reversed
ascending order is the descending order. -/
theorem sortDeals_low_reverse_eq_high_witness :
    ([dealP1, dealP2].Pairwise fun a b => a.price ≠ b.price) ∧
    (sortDeals (some "price_low") [dealP1, dealP2]).reverse =
      sortDeals (some "price_high") [dealP1, dealP2] :=
  have hp : ([dealP1, dealP2].Pairwise fun a b => a.price ≠ b.price) := by
    norm_num [List.pairwise_cons, dealP1, dealP2]
  ⟨hp, sortDeals_low_reverse_eq_high _ hp⟩

end DealsBot
